import Mathlib

/-!
Verification of the textadept-modules bridge layer: the Lua C bindings in
`src/file_diff/ldiff.cxx` (diff facade over diff_match_patch) and
`src/spellcheck/lspell.cxx` (spell facade over Hunspell).

Texts are modelled as lists of characters (`Str`), matching the byte-string
values the bindings pass across the boundary.  The external collaborators
(diff_match_patch's `diff_main`/`diff_cleanupSemantic`, Hunspell's
constructor, `spell`, `add`, `add_dic`, `suggest`, and the Lua auxiliary
library's argument checks) are not under src/; each is modelled from the
spec's stated contract and marked as such in its doc comment.  Everything
else — argument-check ordering, table marshaling, the metatable registered
by `luaopen_spell` — is translated directly from the two source files.
-/

/-- Byte strings exchanged across the Lua boundary. -/
abbrev Str := List Char

/-- The three-way operation kind of one edit operation (the diff engine's
`Operation` enumeration: DELETE, INSERT, EQUAL). -/
inductive Op where
  | del
  | ins
  | equal
deriving DecidableEq

/-- One edit operation of an edit script: a `(kind, text)` pair, as in the
diff engine's `Diff` record used by `ldiff.cxx` (`diff->operation`,
`diff->text`). -/
structure DiffOp where
  operation : Op
  text : Str
deriving DecidableEq

/-- Modelled from the spec: the fixed numeric contract for the kind
enumeration pushed by `ldiff.cxx` line 24 (DELETE = -1, INSERT = +1,
EQUAL = 0); the enumeration's values live in `diff_match_patch.h`, which is
not under src/. -/
def opCode : Op → Int
  | .del => -1
  | .ins => 1
  | .equal => 0

/-- Splits two texts into their longest common prefix and the two
remainders. -/
def splitCommon : Str → Str → Str × Str × Str
  | [], ys => ([], [], ys)
  | x :: xs, [] => ([], x :: xs, [])
  | x :: xs, y :: ys =>
    if x = y then
      let r := splitCommon xs ys
      (x :: r.1, r.2.1, r.2.2)
    else ([], x :: xs, y :: ys)

/-- Modelled from the spec: the external diff engine invoked by `ldiff.cxx`
line 18-19 (`diff_main` followed by `diff_cleanupSemantic`;
`diff_match_patch.h` is not under src/).  Per the spec's collaborator
contract it returns an ordered edit script whose DELETE/EQUAL concatenation
reproduces input 1 and whose INSERT/EQUAL concatenation reproduces input 2,
with a trivial self-comparison collapsed to one EQUAL operation; here it is
realised as a common-prefix split followed by one deletion and one
insertion, empty segments omitted. -/
def dmpDiff (a b : Str) : List DiffOp :=
  if a = b then [⟨Op.equal, a⟩]
  else
    let r := splitCommon a b
    (if r.1 = [] then [] else [⟨Op.equal, r.1⟩]) ++
    (if r.2.1 = [] then [] else [⟨Op.del, r.2.1⟩]) ++
    (if r.2.2 = [] then [] else [⟨Op.ins, r.2.2⟩])

/-- Concatenation of the texts of all non-INSERT (DELETE and EQUAL)
operations, in sequence order. -/
def reconOld : List DiffOp → Str
  | [] => []
  | d :: rest => (if d.operation = Op.ins then [] else d.text) ++ reconOld rest

/-- Concatenation of the texts of all non-DELETE (INSERT and EQUAL)
operations, in sequence order. -/
def reconNew : List DiffOp → Str
  | [] => []
  | d :: rest => (if d.operation = Op.del then [] else d.text) ++ reconNew rest

/-- Modelled from the spec: the native Hunspell dictionary resource owned by
one handle (`hunspell.hxx` is not under src/): the base dictionary plus
affix recognition loaded at construction, the runtime-added words, the
merged auxiliary dictionaries, and the suggestion collaborator's ranked
candidate function. -/
structure HunspellState where
  base : Str → Bool
  added : List Str
  dics : List (Str → Bool)
  sugg : Str → List Str

/-- Modelled from the spec: `Hunspell::spell` — true iff the word matches
the loaded dictionary plus any runtime-added words or merged auxiliary
dictionaries. -/
def hsSpell (hs : HunspellState) (w : Str) : Bool :=
  hs.base w || decide (w ∈ hs.added) || hs.dics.any fun d => d w

/-- Modelled from the spec: `Hunspell::add` — adds a word to the handle's
runtime vocabulary. -/
def hsAdd (hs : HunspellState) (w : Str) : HunspellState :=
  { hs with added := w :: hs.added }

/-- A Lua value as seen by the bindings: nil, boolean, number, string, a
table (integer-keyed raw entries), or a tagged userdata wrapping a native
dictionary state. -/
inductive LuaValue where
  | nil
  | boolean (b : Bool)
  | number (n : Int)
  | str (s : Str)
  | table (t : List (Nat × LuaValue))
  | userdata (tag : Str) (hs : HunspellState)

/-- The error signals the bindings can raise to the host: the Lua argument
type error from the `luaL_check*` family, and the dictionary-loading
failure propagated from the collaborator. -/
inductive LuaError where
  | argTypeError (pos : Nat)
  | loadError
deriving DecidableEq

/-- A call into one of the wrapped native libraries, recorded so that
"no native call is attempted" is a provable statement. -/
inductive NativeCall where
  | dmpDiffMain (a b : Str)
  | hunspellNew (aff dic : Str) (key : Option Str)
  | hunspellSpell (w : Str)
  | hunspellAdd (w : Str)
  | hunspellAddDic (p : Str) (key : Option Str)
  | hunspellSuggest (w : Str)
deriving DecidableEq

/-- Lookup as by `lua_rawgeti`: first entry of the table with the given integer key. -/
def rawget (t : List (Nat × LuaValue)) (k : Nat) : Option LuaValue :=
  match t with
  | [] => none
  | (k2, v) :: rest => if k2 = k then some v else rawget rest k

/-- The marshaling loop of `ldiff.cxx` lines 21-26: for each edit operation
push its kind then its text, `lua_rawseti` at consecutive indices `len++`
starting from `len`. -/
def diffLoop : List DiffOp → Nat → List (Nat × LuaValue)
  | [], _ => []
  | d :: rest, len =>
    (len, LuaValue.number (opCode d.operation)) ::
    (len + 1, LuaValue.str d.text) :: diffLoop rest (len + 2)

/-- The marshaling loop of `lspell.cxx` lines 32-33: for `i` from 0 to
`n-1`, `lua_rawseti` the `i`-th suggestion at index `i + 1`. -/
def suggestLoop : List Str → Nat → List (Nat × LuaValue)
  | [], _ => []
  | s :: rest, i => (i + 1, LuaValue.str s) :: suggestLoop rest (i + 1)

/-- Modelled from the spec: `luaL_checkstring` (Lua auxiliary library, not
under src/) — yields the text argument at 1-based position `i`, raising the
argument type error before any native call when the argument is missing or
not a text value. -/
def checkstring (args : List LuaValue) (i : Nat) : Except LuaError Str :=
  match args.get? (i - 1) with
  | some (.str s) => .ok s
  | _ => .error (.argTypeError i)

/-- Modelled from the spec: `luaL_optstring` (Lua auxiliary library, not
under src/) — like `checkstring` but an absent or nil argument yields the
default (here: none). -/
def optstring (args : List LuaValue) (i : Nat) : Except LuaError (Option Str) :=
  match args.get? (i - 1) with
  | none => .ok none
  | some .nil => .ok none
  | some (.str s) => .ok (some s)
  | some _ => .error (.argTypeError i)

/-- The metatable name registered for spell-checker handles
(`lspell.cxx`: the string literal passed to `luaL_checkudata`,
`luaL_setmetatable` and `luaL_newmetatable`). -/
def ta_spell : Str := "ta_spell".toList

/-- Modelled from the spec: `luaL_checkudata` (Lua auxiliary library, not
under src/) — yields the native state wrapped by the userdata argument at
1-based position `i` when its metatable tag is exactly `ta_spell`, and
raises the argument type error before any native call otherwise. -/
def checkudata (args : List LuaValue) (i : Nat) : Except LuaError HunspellState :=
  match args.get? (i - 1) with
  | some (.userdata tag hs) =>
    if tag = ta_spell then .ok hs else .error (.argTypeError i)
  | _ => .error (.argTypeError i)

/-- Modelled from the spec: the dictionary-loading collaborator behind the
two loading entry points of `lspell.cxx`.  `load` is the `Hunspell`
constructor (affix path, dictionary path, optional key; `none` when either
file is unreadable, malformed, or unlockable, in which case the binding
fails with the load error).  `loadDic` is `Hunspell::add_dic` (auxiliary
dictionary path and optional key; `none` under the same conditions,
otherwise the vocabulary the auxiliary dictionary contributes). -/
structure SpellEnv where
  load : Str → Str → Option Str → Option HunspellState
  loadDic : Str → Option Str → Option (Str → Bool)

/-- The `diff` Lua function of `ldiff.cxx` lines 14-28: check both text
arguments, run the diff engine with semantic cleanup, marshal the edit
script into a fresh table of alternating kind/text entries.  The second
component records the native calls performed. -/
def diff (args : List LuaValue) :
    Except LuaError (List LuaValue) × List NativeCall :=
  match checkstring args 1 with
  | .error e => (.error e, [])
  | .ok text1 =>
    match checkstring args 2 with
    | .error e => (.error e, [])
    | .ok text2 =>
      (.ok [.table (diffLoop (dmpDiff text1 text2) 1)],
       [.dmpDiffMain text1 text2])

/-- The `spell` constructor Lua function of `lspell.cxx` lines 52-61: check
the affix path, dictionary path and optional key, construct the native
dictionary, wrap it in a fresh userdata tagged `ta_spell`. -/
def spell (env : SpellEnv) (args : List LuaValue) :
    Except LuaError (List LuaValue) × List NativeCall :=
  match checkstring args 1 with
  | .error e => (.error e, [])
  | .ok aff =>
    match checkstring args 2 with
    | .error e => (.error e, [])
    | .ok dic =>
      match optstring args 3 with
      | .error e => (.error e, [])
      | .ok key =>
        match env.load aff dic key with
        | none => (.error .loadError, [.hunspellNew aff dic key])
        | some hs => (.ok [.userdata ta_spell hs], [.hunspellNew aff dic key])

/-- The `ls_spell` method of `lspell.cxx` lines 20-24: check the handle and
the word, push the boolean result of the native membership test. -/
def ls_spell (args : List LuaValue) :
    Except LuaError (List LuaValue) × List NativeCall :=
  match checkudata args 1 with
  | .error e => (.error e, [])
  | .ok hs =>
    match checkstring args 2 with
    | .error e => (.error e, [])
    | .ok w => (.ok [.boolean (hsSpell hs w)], [.hunspellSpell w])

/-- The `ls_suggest` method of `lspell.cxx` lines 26-36: check the handle
and the word, obtain the collaborator's ranked candidate list, copy it into
a fresh table at indices 1..n, free the native list, return the table. -/
def ls_suggest (args : List LuaValue) :
    Except LuaError (List LuaValue) × List NativeCall :=
  match checkudata args 1 with
  | .error e => (.error e, [])
  | .ok hs =>
    match checkstring args 2 with
    | .error e => (.error e, [])
    | .ok w => (.ok [.table (suggestLoop (hs.sugg w) 0)], [.hunspellSuggest w])

/-- The `ls_addword` method of `lspell.cxx` lines 38-42: check the handle
and the word, add the word to the handle's runtime vocabulary.  The Lua
function returns 0 values; this pure embedding returns the mutated handle
state instead. -/
def ls_addword (args : List LuaValue) :
    Except LuaError HunspellState × List NativeCall :=
  match checkudata args 1 with
  | .error e => (.error e, [])
  | .ok hs =>
    match checkstring args 2 with
    | .error e => (.error e, [])
    | .ok w => (.ok (hsAdd hs w), [.hunspellAdd w])

/-- The `ls_adddic` method of `lspell.cxx` lines 14-18: check the handle,
the dictionary path and the optional key, merge the auxiliary dictionary
into the handle's vocabulary.  The Lua function returns 0 values; this pure
embedding returns the mutated handle state instead. -/
def ls_adddic (env : SpellEnv) (args : List LuaValue) :
    Except LuaError HunspellState × List NativeCall :=
  match checkudata args 1 with
  | .error e => (.error e, [])
  | .ok hs =>
    match checkstring args 2 with
    | .error e => (.error e, [])
    | .ok p =>
      match optstring args 3 with
      | .error e => (.error e, [])
      | .ok key =>
        match env.loadDic p key with
        | none => (.error .loadError, [.hunspellAddDic p key])
        | some v =>
          (.ok { hs with dics := v :: hs.dics }, [.hunspellAddDic p key])

/-- The `luaL_Reg` array `lib` of `lspell.cxx` lines 44-50: the method
names registered on the `ta_spell` metatable by `luaL_setfuncs`. -/
def lib : List Str :=
  ["add_dic".toList, "spell".toList, "suggest".toList, "add_word".toList]

/-- The complete key set of the `ta_spell` metatable as built by
`luaopen_spell` (`lspell.cxx` lines 63-69): the four methods from `lib`
plus the `__index` self-reference set on line 67.  No other key is ever
written into the metatable. -/
def luaopen_spell_keys : List Str := lib ++ ["__index".toList]

/-- The argument list encoding an optional trailing key argument: absent
when the key is not given. -/
def keyArg : Option Str → List LuaValue
  | none => []
  | some k => [LuaValue.str k]

/-- The argument list of a method call on a valid handle with one text
argument and an optional trailing key. -/
def handleArgs (hs : HunspellState) (p : Str) (key : Option Str) :
    List LuaValue :=
  [LuaValue.userdata ta_spell hs, LuaValue.str p] ++ keyArg key

/-- One vocabulary-mutating host call on a handle: `add_word` with a word,
or `add_dic` with an auxiliary dictionary path and optional key. -/
inductive VocabOp where
  | addWord (w : Str)
  | addDic (p : Str) (key : Option Str)

/-- The handle state after one vocabulary-mutating call through the
bindings; a call that raises an error leaves the handle unchanged. -/
def applyOp (env : SpellEnv) (hs : HunspellState) : VocabOp → HunspellState
  | .addWord w =>
    match ls_addword [.userdata ta_spell hs, .str w] with
    | (.ok hs2, _) => hs2
    | (.error _, _) => hs
  | .addDic p key =>
    match ls_adddic env (handleArgs hs p key) with
    | (.ok hs2, _) => hs2
    | (.error _, _) => hs

/-- The handle state after a finite sequence of vocabulary-mutating calls
through the bindings, applied in order. -/
def applyOps (env : SpellEnv) : List VocabOp → HunspellState → HunspellState
  | [], hs => hs
  | op :: rest, hs => applyOps env rest (applyOp env hs op)

/-- The option holds no text value: the argument is missing or of a
non-text value category. -/
def notText (o : Option LuaValue) : Prop :=
  ∀ s : Str, o ≠ some (LuaValue.str s)

/-- The option holds no userdata of the registered `ta_spell` type: the
argument is missing or is not a handle produced by the constructor. -/
def notHandle (o : Option LuaValue) : Prop :=
  ∀ hs : HunspellState, o ≠ some (LuaValue.userdata ta_spell hs)

/-- A concrete handle state with an empty vocabulary, used to instantiate
universally quantified statements. -/
def emptyHandle : HunspellState :=
  { base := fun _ => false, added := [], dics := [], sugg := fun _ => [] }

/-- A concrete loading environment in which every load fails. -/
def envNone : SpellEnv :=
  { load := fun _ _ _ => none, loadDic := fun _ _ => none }

/-- A concrete loading environment in which every load succeeds. -/
def envSome : SpellEnv :=
  { load := fun _ _ _ => some emptyHandle,
    loadDic := fun _ _ => some fun _ => true }

/-- A concrete handle state whose suggestion collaborator reports exactly
one candidate. -/
def suggHandle : HunspellState :=
  { base := fun _ => false, added := [], dics := [],
    sugg := fun _ => ["ab".toList] }

theorem splitCommon_spec (a : Str) : ∀ b : Str,
    (splitCommon a b).1 ++ (splitCommon a b).2.1 = a ∧
    (splitCommon a b).1 ++ (splitCommon a b).2.2 = b := by
  induction a with
  | nil => intro b; cases b <;> simp [splitCommon]
  | cons x xs ih =>
    intro b
    cases b with
    | nil => simp [splitCommon]
    | cons y ys =>
      by_cases hxy : x = y
      · have h := ih ys
        simp [splitCommon, hxy, h.1, h.2]
      · simp [splitCommon, hxy]

theorem reconOld_append (xs ys : List DiffOp) :
    reconOld (xs ++ ys) = reconOld xs ++ reconOld ys := by
  induction xs with
  | nil => simp [reconOld]
  | cons d rest ih => simp [reconOld, ih]

theorem reconNew_append (xs ys : List DiffOp) :
    reconNew (xs ++ ys) = reconNew xs ++ reconNew ys := by
  induction xs with
  | nil => simp [reconNew]
  | cons d rest ih => simp [reconNew, ih]

theorem dmpDiff_recon (a b : Str) :
    reconOld (dmpDiff a b) = a ∧ reconNew (dmpDiff a b) = b := by
  unfold dmpDiff
  by_cases hab : a = b
  · subst hab; simp [reconOld, reconNew]
  · have h := splitCommon_spec a b
    simp only [hab, if_false]
    constructor
    · rw [reconOld_append, reconOld_append]
      have h1 : reconOld (if (splitCommon a b).1 = [] then []
          else [⟨Op.equal, (splitCommon a b).1⟩]) = (splitCommon a b).1 := by
        split <;> simp_all [reconOld]
      have h2 : reconOld (if (splitCommon a b).2.1 = [] then []
          else [⟨Op.del, (splitCommon a b).2.1⟩]) = (splitCommon a b).2.1 := by
        split <;> simp_all [reconOld]
      have h3 : reconOld (if (splitCommon a b).2.2 = [] then []
          else [⟨Op.ins, (splitCommon a b).2.2⟩]) = [] := by
        split <;> simp_all [reconOld]
      rw [h1, h2, h3, List.append_nil, h.1]
    · rw [reconNew_append, reconNew_append]
      have h1 : reconNew (if (splitCommon a b).1 = [] then []
          else [⟨Op.equal, (splitCommon a b).1⟩]) = (splitCommon a b).1 := by
        split <;> simp_all [reconNew]
      have h2 : reconNew (if (splitCommon a b).2.1 = [] then []
          else [⟨Op.del, (splitCommon a b).2.1⟩]) = [] := by
        split <;> simp_all [reconNew]
      have h3 : reconNew (if (splitCommon a b).2.2 = [] then []
          else [⟨Op.ins, (splitCommon a b).2.2⟩]) = (splitCommon a b).2.2 := by
        split <;> simp_all [reconNew]
      rw [h1, h2, h3, List.append_nil, h.2]

theorem diffLoop_length : ∀ (ds : List DiffOp) (len : Nat),
    (diffLoop ds len).length = 2 * ds.length := by
  intro ds
  induction ds with
  | nil => intro len; simp [diffLoop]
  | cons d rest ih => intro len; simp [diffLoop, ih]; omega

theorem diffLoop_spec : ∀ (ds : List DiffOp) (len i : Nat) (h : i < ds.length),
    rawget (diffLoop ds len) (len + 2 * i) =
      some (LuaValue.number (opCode (ds.get ⟨i, h⟩).operation)) ∧
    rawget (diffLoop ds len) (len + 2 * i + 1) =
      some (LuaValue.str (ds.get ⟨i, h⟩).text) := by
  intro ds
  induction ds with
  | nil => intro len i h; simp at h
  | cons d rest ih =>
    intro len i h
    cases i with
    | zero =>
      have h1 : len ≠ len + 1 := by omega
      simp [diffLoop, rawget, h1]
    | succ i =>
      have h1 : len ≠ len + 2 * (i + 1) := by omega
      have h2 : len + 1 ≠ len + 2 * (i + 1) := by omega
      have h3 : len ≠ len + 2 * (i + 1) + 1 := by omega
      have h4 : len + 1 ≠ len + 2 * (i + 1) + 1 := by omega
      have hi : i < rest.length := by simpa using Nat.lt_of_succ_lt_succ h
      have key1 : len + 2 * (i + 1) = (len + 2) + 2 * i := by omega
      have key2 : len + 2 * (i + 1) + 1 = (len + 2) + 2 * i + 1 := by omega
      have := ih (len + 2) i hi
      constructor
      · simp only [diffLoop, rawget, if_neg h1, if_neg h2]
        rw [key1]
        exact this.1
      · simp only [diffLoop, rawget, if_neg h3, if_neg h4]
        rw [key2]
        exact this.2

theorem suggestLoop_get : ∀ (slst : List Str) (i0 j : Nat) (h : j < slst.length),
    rawget (suggestLoop slst i0) (i0 + 1 + j) =
      some (LuaValue.str (slst.get ⟨j, h⟩)) := by
  intro slst
  induction slst with
  | nil => intro i0 j h; simp at h
  | cons s rest ih =>
    intro i0 j h
    cases j with
    | zero => simp [suggestLoop, rawget]
    | succ j =>
      have h1 : i0 + 1 ≠ i0 + 1 + (j + 1) := by omega
      have hj : j < rest.length := by simpa using Nat.lt_of_succ_lt_succ h
      have key : i0 + 1 + (j + 1) = (i0 + 1) + 1 + j := by omega
      simp only [suggestLoop, rawget, if_neg h1]
      rw [key]
      simpa using ih (i0 + 1) j hj

theorem suggestLoop_none : ∀ (slst : List Str) (i0 k : Nat),
    (k ≤ i0 ∨ i0 + slst.length < k) → rawget (suggestLoop slst i0) k = none := by
  intro slst
  induction slst with
  | nil => intro i0 k _; simp [suggestLoop, rawget]
  | cons s rest ih =>
    intro i0 k hk
    have h1 : i0 + 1 ≠ k := by simp at hk; omega
    simp only [suggestLoop, rawget, if_neg h1]
    apply ih (i0 + 1)
    simp at hk ⊢
    omega

theorem checkstring_err (args : List LuaValue) (i : Nat)
    (h : notText (args.get? (i - 1))) :
    checkstring args i = .error (.argTypeError i) := by
  unfold checkstring
  rcases ho : args.get? (i - 1) with _ | v
  · rfl
  · cases v with
    | str s => exact absurd ho (h s)
    | _ => rfl

theorem checkudata_err (args : List LuaValue) (i : Nat)
    (h : notHandle (args.get? (i - 1))) :
    checkudata args i = .error (.argTypeError i) := by
  unfold checkudata
  rcases ho : args.get? (i - 1) with _ | v
  · rfl
  · cases v with
    | userdata tag hs =>
      by_cases htag : tag = ta_spell
      · subst htag; exact absurd ho (h hs)
      · simp [htag]
    | _ => rfl

theorem hsSpell_hsAdd_mono (hs : HunspellState) (w w2 : Str)
    (h : hsSpell hs w = true) : hsSpell (hsAdd hs w2) w = true := by
  simp [hsSpell, hsAdd] at h ⊢
  tauto

theorem hsSpell_dic_mono (hs : HunspellState) (w : Str) (v : Str → Bool)
    (h : hsSpell hs w = true) :
    hsSpell { hs with dics := v :: hs.dics } w = true := by
  simp [hsSpell] at h ⊢
  tauto

/-- Claim C1: for every pair of input texts the `diff` binding returns the
table marshaled from the engine's edit script, and that edit script
satisfies the reconstruction invariant: the texts of the DELETE and EQUAL
operations concatenate, in sequence order, to the first input exactly, and
the texts of the INSERT and EQUAL operations concatenate to the second
input exactly. -/
theorem diff_reconstruction (a b : Str) :
    diff [LuaValue.str a, LuaValue.str b] =
      (.ok [.table (diffLoop (dmpDiff a b) 1)], [.dmpDiffMain a b]) ∧
    reconOld (dmpDiff a b) = a ∧ reconNew (dmpDiff a b) = b :=
  ⟨rfl, dmpDiff_recon a b⟩

/-- Claim C9: comparing a text with itself yields exactly one EQUAL
operation carrying that text, so the marshaled flat sequence has length 2:
the EQUAL kind 0 at index 1 followed by the text at index 2. -/
theorem diff_identity (a : Str) :
    dmpDiff a a = [⟨Op.equal, a⟩] ∧
    diffLoop (dmpDiff a a) 1 =
      [(1, LuaValue.number 0), (2, LuaValue.str a)] := by
  have h : dmpDiff a a = [⟨Op.equal, a⟩] := by simp [dmpDiff]
  refine ⟨h, ?_⟩
  rw [h]
  simp [diffLoop, opCode]

/-- Claim C2: for every pair of input texts the marshaled table has even
length 2N for the N operations of the edit script, and for each operation
the odd 1-based index 2i+1 holds its kind — an integer among -1 (DELETE),
+1 (INSERT), 0 (EQUAL) — while the even index 2i+2 holds its text. -/
theorem diff_flat_encoding (a b : Str) :
    (diffLoop (dmpDiff a b) 1).length = 2 * (dmpDiff a b).length ∧
    ∀ i (h : i < (dmpDiff a b).length),
      rawget (diffLoop (dmpDiff a b) 1) (2 * i + 1) =
        some (LuaValue.number (opCode ((dmpDiff a b).get ⟨i, h⟩).operation)) ∧
      opCode ((dmpDiff a b).get ⟨i, h⟩).operation ∈ ([-1, 0, 1] : List Int) ∧
      rawget (diffLoop (dmpDiff a b) 1) (2 * i + 2) =
        some (LuaValue.str ((dmpDiff a b).get ⟨i, h⟩).text) := by
  refine ⟨diffLoop_length _ 1, ?_⟩
  intro i h
  obtain ⟨hs1, hs2⟩ := diffLoop_spec (dmpDiff a b) 1 i h
  have k1 : 1 + 2 * i = 2 * i + 1 := by omega
  have k2 : 1 + 2 * i + 1 = 2 * i + 2 := by omega
  rw [k1] at hs1
  rw [k2] at hs2
  refine ⟨hs1, ?_, hs2⟩
  cases ((dmpDiff a b).get ⟨i, h⟩).operation <;> decide

/-- Witness for claim C2's per-operation clause at the concrete inputs
"ab" and "ac". -/
theorem diff_flat_encoding_witness :
    0 < (dmpDiff "ab".toList "ac".toList).length ∧
    rawget (diffLoop (dmpDiff "ab".toList "ac".toList) 1) (2 * 0 + 1) =
      some (LuaValue.number 0) := by
  have h0 : 0 < (dmpDiff "ab".toList "ac".toList).length := by decide
  refine ⟨h0, ?_⟩
  have h := ((diff_flat_encoding "ab".toList "ac".toList).2 0 h0).1
  rw [h]
  rfl

/-- Claim C3: for every operation of both modules, a required argument that
is missing or of the wrong value category — a non-text value where text is
expected for `diff` and the constructor, or a first argument that is not a
userdata of the registered `ta_spell` type for the four methods, or a
non-text word argument — makes the call fail with the argument type error
raised before any native call: the recorded native-call trace is empty. -/
theorem arg_type_errors (env : SpellEnv) (args : List LuaValue) :
    (notText (args.get? 0) →
      diff args = (.error (.argTypeError 1), []) ∧
      spell env args = (.error (.argTypeError 1), [])) ∧
    (∀ s : Str, args.get? 0 = some (.str s) → notText (args.get? 1) →
      diff args = (.error (.argTypeError 2), []) ∧
      spell env args = (.error (.argTypeError 2), [])) ∧
    (notHandle (args.get? 0) →
      ls_spell args = (.error (.argTypeError 1), []) ∧
      ls_suggest args = (.error (.argTypeError 1), []) ∧
      ls_addword args = (.error (.argTypeError 1), []) ∧
      ls_adddic env args = (.error (.argTypeError 1), [])) ∧
    (∀ hs : HunspellState, args.get? 0 = some (.userdata ta_spell hs) →
      notText (args.get? 1) →
      ls_spell args = (.error (.argTypeError 2), []) ∧
      ls_suggest args = (.error (.argTypeError 2), []) ∧
      ls_addword args = (.error (.argTypeError 2), []) ∧
      ls_adddic env args = (.error (.argTypeError 2), [])) := by
  refine ⟨?_, ?_, ?_, ?_⟩
  · intro h
    have hc : checkstring args 1 = .error (.argTypeError 1) :=
      checkstring_err args 1 h
    exact ⟨by simp only [diff, hc], by simp only [spell, hc]⟩
  · intro s h0 h1
    have h0g : args[0]? = some (LuaValue.str s) := by simpa using h0
    have hc1 : checkstring args 1 = .ok s := by
      simp [checkstring, h0g]
    have hc2 : checkstring args 2 = .error (.argTypeError 2) :=
      checkstring_err args 2 h1
    exact ⟨by simp only [diff, hc1, hc2], by simp only [spell, hc1, hc2]⟩
  · intro h
    have hu : checkudata args 1 = .error (.argTypeError 1) :=
      checkudata_err args 1 h
    exact ⟨by simp only [ls_spell, hu], by simp only [ls_suggest, hu],
      by simp only [ls_addword, hu], by simp only [ls_adddic, hu]⟩
  · intro hs h0 h1
    have h0g : args[0]? = some (LuaValue.userdata ta_spell hs) := by
      simpa using h0
    have hu : checkudata args 1 = .ok hs := by
      simp [checkudata, h0g]
    have hc2 : checkstring args 2 = .error (.argTypeError 2) :=
      checkstring_err args 2 h1
    exact ⟨by simp only [ls_spell, hu, hc2], by simp only [ls_suggest, hu, hc2],
      by simp only [ls_addword, hu, hc2], by simp only [ls_adddic, hu, hc2]⟩

/-- Witness for claim C3 at concrete badly-typed argument lists: a number
where a text is expected, a number where a handle is expected, and a
boolean where the word is expected after a valid handle. -/
theorem arg_type_errors_witness :
    diff [LuaValue.number 3] = (.error (.argTypeError 1), []) ∧
    spell envNone [LuaValue.number 3] = (.error (.argTypeError 1), []) ∧
    ls_spell [LuaValue.number 3] = (.error (.argTypeError 1), []) ∧
    ls_addword [LuaValue.number 3] = (.error (.argTypeError 1), []) ∧
    ls_spell [LuaValue.userdata ta_spell emptyHandle, LuaValue.boolean true] =
      (.error (.argTypeError 2), []) := by
  have hnt : notText ([LuaValue.number 3].get? 0) := by
    intro s hcontra
    simp at hcontra
  have hnh : notHandle ([LuaValue.number 3].get? 0) := by
    intro hs hcontra
    simp at hcontra
  have hnt2 : notText
      (([LuaValue.userdata ta_spell emptyHandle,
         LuaValue.boolean true] : List LuaValue).get? 1) := by
    intro s hcontra
    simp at hcontra
  have p1 := (arg_type_errors envNone [LuaValue.number 3]).1 hnt
  have p3 := (arg_type_errors envNone [LuaValue.number 3]).2.2.1 hnh
  have p4 := (arg_type_errors envNone
    [LuaValue.userdata ta_spell emptyHandle, LuaValue.boolean true]).2.2.2
    emptyHandle rfl hnt2
  exact ⟨p1.1, p1.2, p3.1, p3.2.2.1, p4.1⟩

theorem ls_adddic_eval (env : SpellEnv) (hs : HunspellState) (p : Str)
    (key : Option Str) :
    ls_adddic env (handleArgs hs p key) =
      match env.loadDic p key with
      | none => (.error .loadError, [.hunspellAddDic p key])
      | some v =>
        (.ok { hs with dics := v :: hs.dics }, [.hunspellAddDic p key]) := by
  cases key <;>
    simp [ls_adddic, handleArgs, keyArg, checkudata, checkstring, optstring]

/-- Claim C4: a construction call whose affix/dictionary paths the loading
collaborator rejects fails with the load error, propagated with the native
constructor as the only attempted call; and every successful construction
returns exactly one fully-constructed handle wrapping the loaded state —
never a half-constructed one. -/
theorem construct_load_error (env : SpellEnv) (aff dic : Str)
    (key : Option Str) :
    (env.load aff dic key = none →
      spell env ([LuaValue.str aff, LuaValue.str dic] ++ keyArg key) =
        (.error .loadError, [.hunspellNew aff dic key])) ∧
    (∀ res tr,
      spell env ([LuaValue.str aff, LuaValue.str dic] ++ keyArg key) =
        (.ok res, tr) →
      ∃ hs, env.load aff dic key = some hs ∧
        res = [LuaValue.userdata ta_spell hs]) := by
  have heval : spell env ([LuaValue.str aff, LuaValue.str dic] ++ keyArg key) =
      match env.load aff dic key with
      | none => (.error .loadError, [.hunspellNew aff dic key])
      | some hs =>
        (.ok [LuaValue.userdata ta_spell hs], [.hunspellNew aff dic key]) := by
    cases key <;> simp [spell, keyArg, checkstring, optstring]
  constructor
  · intro h
    rw [heval, h]
  · intro res tr hok
    rw [heval] at hok
    rcases hload : env.load aff dic key with _ | hs
    · rw [hload] at hok
      simp at hok
    · rw [hload] at hok
      simp at hok
      exact ⟨hs, rfl, hok.1.symm⟩

/-- Witness for claim C4: with a collaborator that rejects every load the
construction fails with the load error, and with one that accepts, the
successful result is exactly the wrapped handle. -/
theorem construct_load_error_witness :
    spell envNone [LuaValue.str "x.aff".toList, LuaValue.str "x.dic".toList] =
      (.error .loadError,
       [.hunspellNew "x.aff".toList "x.dic".toList none]) ∧
    ∃ hs, envSome.load "x.aff".toList "x.dic".toList none = some hs ∧
      [LuaValue.userdata ta_spell emptyHandle] =
        [LuaValue.userdata ta_spell hs] := by
  constructor
  · exact (construct_load_error envNone "x.aff".toList "x.dic".toList
      none).1 rfl
  · exact (construct_load_error envSome "x.aff".toList "x.dic".toList
      none).2 [LuaValue.userdata ta_spell emptyHandle]
      [.hunspellNew "x.aff".toList "x.dic".toList none] rfl

/-- Claim C5: on a valid handle, `add_dic` fails with the load error under
the same loading conditions as construction (the collaborator rejects the
auxiliary dictionary), and otherwise merges the auxiliary dictionary's
vocabulary into the handle — afterwards a word is recognized exactly
when it was recognized before or the auxiliary dictionary contributes it — returning
no values (the mutated handle state in this embedding). -/
theorem add_dic_contract (env : SpellEnv) (hs : HunspellState) (p : Str)
    (key : Option Str) :
    (env.loadDic p key = none →
      ls_adddic env (handleArgs hs p key) =
        (.error .loadError, [.hunspellAddDic p key])) ∧
    (∀ v, env.loadDic p key = some v →
      ls_adddic env (handleArgs hs p key) =
        (.ok { hs with dics := v :: hs.dics }, [.hunspellAddDic p key]) ∧
      ∀ w, hsSpell { hs with dics := v :: hs.dics } w =
        (hsSpell hs w || v w)) := by
  constructor
  · intro h
    rw [ls_adddic_eval, h]
  · intro v h
    refine ⟨by rw [ls_adddic_eval, h], ?_⟩
    intro w
    show (hs.base w || decide (w ∈ hs.added) ||
        (v :: hs.dics).any fun d => d w) =
      ((hs.base w || decide (w ∈ hs.added) || hs.dics.any fun d => d w) || v w)
    rw [List.any_cons]
    cases hs.base w <;> cases decide (w ∈ hs.added) <;> cases v w <;>
      cases hs.dics.any (fun d => d w) <;> rfl

/-- Witness for claim C5 at a concrete handle, path and environments. -/
theorem add_dic_contract_witness :
    ls_adddic envNone (handleArgs emptyHandle "x.dic".toList none) =
      (.error .loadError, [.hunspellAddDic "x.dic".toList none]) ∧
    ls_adddic envSome (handleArgs emptyHandle "x.dic".toList none) =
      (.ok { emptyHandle with dics := [fun _ => true] },
       [.hunspellAddDic "x.dic".toList none]) := by
  constructor
  · exact (add_dic_contract envNone emptyHandle "x.dic".toList none).1 rfl
  · exact ((add_dic_contract envSome emptyHandle "x.dic".toList none).2
      (fun _ => true) rfl).1

/-- Claim C6 evidence: the `ta_spell` metatable built by `luaopen_spell`
contains no `__gc` entry — the key set it writes is exactly the four
methods plus `__index` — so no finalizer/destructor hook is attached to a
handle and nothing runs when the host's garbage collector releases the
last reference: the native dictionary resource is never released, contrary
to the claimed release-exactly-once behavior. -/
theorem luaopen_spell_no_finalizer :
    "__gc".toList ∉ luaopen_spell_keys := by decide

/-- Claim C7: a word not recognized by a handle is recognized by it after
`add_word`: running `add_word` through the binding on a valid handle and
then `spell` on the resulting handle state with the same word returns
true. -/
theorem add_word_effect (hs : HunspellState) (w : Str)
    (_hmiss : hsSpell hs w = false) :
    ∀ hs2 tr,
      ls_addword [LuaValue.userdata ta_spell hs, LuaValue.str w] =
        (.ok hs2, tr) →
      ls_spell [LuaValue.userdata ta_spell hs2, LuaValue.str w] =
        (.ok [LuaValue.boolean true], [.hunspellSpell w]) := by
  intro hs2 tr hok
  simp [ls_addword, checkudata, checkstring] at hok
  have hT : hsSpell hs2 w = true := by
    rw [← hok.1]
    simp [hsSpell, hsAdd]
  simp [ls_spell, checkudata, checkstring, hT]

/-- Witness for claim C7: the empty handle does not recognize "a"; after
`add_word` it does. -/
theorem add_word_effect_witness :
    hsSpell emptyHandle "a".toList = false ∧
    ls_spell [LuaValue.userdata ta_spell (hsAdd emptyHandle "a".toList),
        LuaValue.str "a".toList] =
      (.ok [LuaValue.boolean true], [.hunspellSpell "a".toList]) := by
  refine ⟨rfl, ?_⟩
  exact add_word_effect emptyHandle "a".toList rfl
    (hsAdd emptyHandle "a".toList) [.hunspellAdd "a".toList] rfl

/-- Claim C8: vocabulary additions never remove recognized words — a word
recognized by a handle is still recognized after any finite sequence of
`add_word` / `add_dic` calls through the bindings, whether each `add_dic`
load succeeds or fails. -/
theorem spell_monotonic (env : SpellEnv) (ops : List VocabOp)
    (hs : HunspellState) (w : Str) (h : hsSpell hs w = true) :
    hsSpell (applyOps env ops hs) w = true := by
  induction ops generalizing hs with
  | nil => simpa [applyOps] using h
  | cons op rest ih =>
    show hsSpell (applyOps env rest (applyOp env hs op)) w = true
    apply ih
    cases op with
    | addWord w2 =>
      have heq : applyOp env hs (.addWord w2) = hsAdd hs w2 := by
        simp [applyOp, ls_addword, checkudata, checkstring]
      rw [heq]
      exact hsSpell_hsAdd_mono hs w w2 h
    | addDic p key =>
      rcases hl : env.loadDic p key with _ | v
      · have heq : applyOp env hs (.addDic p key) = hs := by
          simp [applyOp, ls_adddic_eval, hl]
        rw [heq]
        exact h
      · have heq : applyOp env hs (.addDic p key) =
            { hs with dics := v :: hs.dics } := by
          simp [applyOp, ls_adddic_eval, hl]
        rw [heq]
        exact hsSpell_dic_mono hs w v h

/-- Witness for claim C8: a handle recognizing "a" still recognizes it
after an `add_word` and an `add_dic` (with a succeeding load). -/
theorem spell_monotonic_witness :
    hsSpell (hsAdd emptyHandle "a".toList) "a".toList = true ∧
    hsSpell (applyOps envSome
        [.addWord "b".toList, .addDic "x.dic".toList none]
        (hsAdd emptyHandle "a".toList)) "a".toList = true := by
  refine ⟨rfl, ?_⟩
  exact spell_monotonic envSome
    [.addWord "b".toList, .addDic "x.dic".toList none]
    (hsAdd emptyHandle "a".toList) "a".toList rfl

/-- Claim C10: the table returned by `suggest` on a valid handle holds
exactly the collaborator's candidate strings at the contiguous 1-based
indices 1..n in ranked order — entry j+1 is the collaborator's j-th
suggestion, every index outside 1..n is unset — and it is empty when the
collaborator reports zero candidates. -/
theorem suggest_marshaling (hs : HunspellState) (w : Str) :
    ls_suggest [LuaValue.userdata ta_spell hs, LuaValue.str w] =
      (.ok [LuaValue.table (suggestLoop (hs.sugg w) 0)],
       [.hunspellSuggest w]) ∧
    (∀ j (h : j < (hs.sugg w).length),
      rawget (suggestLoop (hs.sugg w) 0) (j + 1) =
        some (LuaValue.str ((hs.sugg w).get ⟨j, h⟩))) ∧
    (∀ k, k = 0 ∨ (hs.sugg w).length < k →
      rawget (suggestLoop (hs.sugg w) 0) k = none) ∧
    (hs.sugg w = [] → suggestLoop (hs.sugg w) 0 = []) := by
  refine ⟨?_, ?_, ?_, ?_⟩
  · simp [ls_suggest, checkudata, checkstring]
  · intro j h
    have hg := suggestLoop_get (hs.sugg w) 0 j h
    rw [show j + 1 = 0 + 1 + j by omega]
    exact hg
  · intro k hk
    apply suggestLoop_none
    rcases hk with rfl | hk
    · exact Or.inl (Nat.le_refl 0)
    · exact Or.inr (by omega)
  · intro h
    rw [h]
    rfl

/-- Witness for claim C10 at a concrete handle whose collaborator reports
one suggestion. -/
theorem suggest_marshaling_witness :
    0 < ((suggHandle).sugg "a".toList).length ∧
    rawget (suggestLoop (suggHandle.sugg "a".toList) 0) (0 + 1) =
      some (LuaValue.str "ab".toList) ∧
    rawget (suggestLoop (suggHandle.sugg "a".toList) 0) 2 = none := by
  have h0 : 0 < ((suggHandle).sugg "a".toList).length := by decide
  refine ⟨h0, ?_, ?_⟩
  · have hg := (suggest_marshaling suggHandle "a".toList).2.1 0 h0
    rw [hg]
    rfl
  · exact (suggest_marshaling suggHandle "a".toList).2.2.1 2
      (Or.inr (by decide))
